import Mathlib

/-!
Verification development for the tail-f log streaming engine.

The embedding models the three core components at the level the source
operates on:

* `getLastLines` — `LogTailWatcher.get_last_lines` / module-level
  `get_last_lines` in `log_watcher.py`: reverse chunked reading of the last
  `n` non-blank lines of a file.  Files are byte lists (`List Nat`); text is
  a list of Unicode code points (`List Nat`), obtained by UTF-8 decoding
  with invalid sequences skipped (Python `errors='ignore'`).
* `watchStep` — one iteration of the polling loop `LogTailWatcher.watch`.
  The filesystem visible during one poll cycle is a snapshot `FS`
  (existence, inode, decoded character content); the watcher state `WState`
  mirrors the Python instance attributes `inode`, `file` (modelled by the
  handle's read position, `none` when closed), `first_open` and `position`.
  The watched file is opened in text mode with universal newline
  translation, so `FS.content` is the translated stream in which the only
  line separator is `10`.
* `sendToAll` / `connect` / `disconnect` — `WebSocketManager` in
  `websocket_manager.py`, with subscriber channels as naturals and the
  transport `send` modelled by a success predicate.
* `websocketEndpoint` — the connection handler in `main.py`, recorded as an
  event trace so the order of subscription and historical send is visible.
-/

/-- Python `str.strip()` whiteness test, restricted to the ASCII whitespace
code points (space, tab, LF, CR, VT, FF); all concrete inputs used below are
ASCII. -/
def isPySpace (c : Nat) : Bool :=
  c = 32 || c = 9 || c = 10 || c = 13 || c = 11 || c = 12

/-- A line is blank when `line.strip()` is falsy: every character is
whitespace (this includes the empty line). -/
def isBlankLine (l : List Nat) : Bool :=
  l.all isPySpace

/-- Python `text.split('\n')`: split on every `10`, keeping empty pieces;
the empty text yields `[[]]` just as `''.split('\n') == ['']`. -/
def splitOnNL : List Nat → List (List Nat)
  | [] => [[]]
  | c :: rest =>
    if c = 10 then [] :: splitOnNL rest
    else
      match splitOnNL rest with
      | [] => [[c]]
      | p :: ps => (c :: p) :: ps

/-- Is `b` a UTF-8 continuation byte (`0x80`–`0xBF`)? -/
def isContByte (b : Nat) : Bool :=
  128 ≤ b && b ≤ 191

/-- Fuel-driven UTF-8 decoding with `errors='ignore'`: a well-formed
sequence is decoded to its code point, anything invalid (including a
sequence truncated by the end of the input) is skipped.  The fuel only
serves termination; `utf8DecodeIgnore` supplies enough for the whole
input. -/
def utf8DecodeIgnoreAux : Nat → List Nat → List Nat
  | 0, _ => []
  | _ + 1, [] => []
  | fuel + 1, b :: rest =>
    if b < 128 then
      b :: utf8DecodeIgnoreAux fuel rest
    else if 194 ≤ b && b ≤ 223 then
      match rest with
      | b2 :: rest2 =>
        if isContByte b2 then
          ((b - 192) * 64 + (b2 - 128)) :: utf8DecodeIgnoreAux fuel rest2
        else utf8DecodeIgnoreAux fuel rest
      | [] => []
    else if 224 ≤ b && b ≤ 239 then
      match rest with
      | b2 :: b3 :: rest3 =>
        if isContByte b2 && isContByte b3 then
          ((b - 224) * 4096 + (b2 - 128) * 64 + (b3 - 128)) ::
            utf8DecodeIgnoreAux fuel rest3
        else utf8DecodeIgnoreAux fuel rest
      | _ => utf8DecodeIgnoreAux fuel rest.tail
    else if 240 ≤ b && b ≤ 244 then
      match rest with
      | b2 :: b3 :: b4 :: rest4 =>
        if isContByte b2 && isContByte b3 && isContByte b4 then
          ((b - 240) * 262144 + (b2 - 128) * 4096 + (b3 - 128) * 64 +
              (b4 - 128)) :: utf8DecodeIgnoreAux fuel rest4
        else utf8DecodeIgnoreAux fuel rest
      | _ => utf8DecodeIgnoreAux fuel rest.tail
    else
      utf8DecodeIgnoreAux fuel rest

/-- `bytes.decode('utf-8', errors='ignore')` on the byte list. -/
def utf8DecodeIgnore (l : List Nat) : List Nat :=
  utf8DecodeIgnoreAux l.length l

/-- `str.encode('utf-8')` of a code-point list. -/
def utf8Encode (l : List Nat) : List Nat :=
  l.flatMap fun c =>
    if c < 128 then [c]
    else if c < 2048 then [192 + c / 64, 128 + c % 64]
    else if c < 65536 then [224 + c / 4096, 128 + c / 64 % 64, 128 + c % 64]
    else [240 + c / 262144, 128 + c / 4096 % 64, 128 + c / 64 % 64,
      128 + c % 64]

/-- Python `lines[-n:]`: for `n = 0` this is the whole list (`lines[0:]`),
otherwise the last `n` elements. -/
def pyLastSlice (n : Nat) (l : List (List Nat)) : List (List Nat) :=
  if n = 0 then l else l.drop (l.length - n)

/-- The loop of `get_last_lines` (log_watcher.py lines 58–76).  The loop
variables are the read position `pos`, the byte `buffer` of the pending
(possibly incomplete) first fragment, and the retained `lines`.  Recursion
is on a fuel argument; `pos` drops by `min chunkSize pos ≥ 1` every
iteration (the caller only passes `chunkSize ≥ 1`), so fuel `pos` is always
enough and the fuel-exhaustion branch mirrors the normal loop exit. -/
def lastLinesLoop (content : List Nat) (n chunkSize : Nat) :
    Nat → Nat → List Nat → List (List Nat) → List (List Nat)
  | 0, _, _, lines => if lines.isEmpty then [] else pyLastSlice n lines
  | fuel + 1, pos, buffer, lines =>
    if 0 < pos ∧ lines.length < n then
      let readSize := min chunkSize pos
      let pos' := pos - readSize
      let buffer' := (content.drop pos').take readSize ++ buffer
      let text := utf8DecodeIgnore buffer'
      let splitLines := splitOnNL text
      let step : List Nat × List (List Nat) :=
        if 0 < pos' ∧ 1 < splitLines.length then
          (utf8Encode (splitLines.headD []), splitLines.tail ++ lines)
        else
          ([], splitLines ++ lines)
      let lines' := step.2.filter fun l => !isBlankLine l
      if n < lines'.length then pyLastSlice n lines'
      else lastLinesLoop content n chunkSize fuel pos' step.1 lines'
    else
      if lines.isEmpty then [] else pyLastSlice n lines

/-- `get_last_lines(filepath, n)` (log_watcher.py lines 44–80): `none`
models a missing file (`os.path.exists` false → `[]`); an existing file is
its byte content.  An empty file returns `[]`; otherwise the file is read
backwards in chunks of `min(8192, file_size)` bytes. -/
def getLastLines (file : Option (List Nat)) (n : Nat) : List (List Nat) :=
  match file with
  | none => []
  | some content =>
    if content.length = 0 then []
    else
      lastLinesLoop content n (min 8192 content.length)
        content.length content.length [] []

/-- Modelled from the spec's words, for comparison with `getLastLines`: the
true final `n` non-blank lines of the decoded file, oldest-first (spec §4.1
and §8). -/
def specLastLines (content : List Nat) (n : Nat) : List (List Nat) :=
  let nonBlank := (splitOnNL (utf8DecodeIgnore content)).filter
    fun l => !isBlankLine l
  nonBlank.drop (nonBlank.length - n)

/-- The C1 failing input: the bytes of `"X\n"` followed by a single line
of 8193 `'A'`s — longer than the 8192-byte read chunk, so the chunk read
from the end of this 8195-byte file contains no line separator. -/
def c1content : List Nat := 88 :: 10 :: List.replicate 8193 65

/-- Snapshot of the watched path during one poll cycle: whether the path
exists, the inode the path resolves to, and the file's content as seen
through the text-mode handle (universal newline translation applied, so
`10` is the only line separator; `content.length` also models
`os.path.getsize`, faithful for the single-byte characters used here). -/
structure FS where
  present : Bool
  ino : Nat
  content : List Nat
deriving DecidableEq, Repr

/-- State of a `LogTailWatcher` between poll cycles: `inode` is
`self.inode`; `filePos` models `self.file` (`none` = handle closed,
`some p` = handle open with its internal read position at `p`);
`firstOpen` is `self.first_open` and `position` is `self.position`. -/
structure WState where
  inode : Option Nat
  filePos : Option Nat
  firstOpen : Bool
  position : Nat
deriving DecidableEq, Repr

/-- The fresh state built by `LogTailWatcher.__init__`. -/
def initialWState : WState :=
  { inode := none, filePos := none, firstOpen := true, position := 0 }

/-- `_is_rotated` (log_watcher.py lines 23–29): the path is gone, or it now
resolves to a different inode than the recorded one. -/
def isRotated (s : WState) (fs : FS) : Bool :=
  !fs.present ||
    (match s.inode with
     | some i => fs.ino != i
     | none => false)

/-- `_open_file` (lines 14–21): on success the handle is opened at
position 0 and the inode recorded; on failure both are cleared. -/
def openFileW (s : WState) (fs : FS) (ok : Bool) : WState :=
  if ok then { s with filePos := some 0, inode := some fs.ino }
  else { s with filePos := none, inode := none }

/-- `_close_file` (lines 36–42): the handle is dropped; note the source
does NOT clear `self.inode` here. -/
def closeFileW (s : WState) : WState :=
  { s with filePos := none }

/-- The `except` handler of the watch loop (lines 124–127): close the
handle and sleep. -/
def errorRecover (s : WState) : WState :=
  closeFileW s

/-- `readline()` of the text stream: the characters up to and including
the first `10`, or everything to end-of-file when no separator follows —
Python's `readline` returns the trailing data even without a
terminator. -/
def takeLine : List Nat → List Nat
  | [] => []
  | c :: rest => if c = 10 then [10] else c :: takeLine rest

/-- `line.rstrip('\r\n')`: drop every trailing `10`/`13`. -/
def rstripCRLF (l : List Nat) : List Nat :=
  (l.reverse.dropWhile fun c => c = 10 || c = 13).reverse

/-- The reopen block of `watch` (lines 87–107), entered when the handle is
closed or rotation was detected.  Returns the updated state and whether
the cycle goes on to the size/read phase: `false` when the watcher is
still waiting for the path to appear (`_wait_for_file`) or the open
failed (the `continue` at line 98). -/
def reopenPhase (s : WState) (fs : FS) (openOk : Bool) : WState × Bool :=
  let rotated := s.filePos.isSome
  let s1 := if s.filePos.isSome then closeFileW s else s
  if !fs.present then (s1, false)
  else
    let s2 := openFileW s1 fs openOk
    if s2.filePos.isNone then (s2, false)
    else
      let s3 :=
        if s2.firstOpen then
          { s2 with filePos := some fs.content.length, firstOpen := false }
        else if rotated then { s2 with filePos := some 0 }
        else s2
      ({ s3 with position := s3.filePos.getD 0 }, true)

/-- The truncation check of `watch` (lines 109–115): if the file shrank
below `position`, seek to the start and reset `position` to 0; if it
grew, seek the handle to `position`; otherwise leave the handle where it
is. -/
def sizeCheckPhase (s : WState) (fs : FS) : WState :=
  let size := fs.content.length
  if size < s.position then { s with filePos := some 0, position := 0 }
  else if s.position < size then { s with filePos := some s.position }
  else s

/-- The read/publish step of `watch` (lines 117–122): `readline`; if it
returned data, strip the terminator; publish only when the stripped line
is non-empty, and only then record the new position (`self.position =
self.file.tell()`).  The second component is the message handed to
`manager.broadcast`, if any. -/
def readPhase (s : WState) (fs : FS) : WState × Option (List Nat) :=
  let hp := s.filePos.getD 0
  let line := takeLine (fs.content.drop hp)
  if line.isEmpty then (s, none)
  else
    let hp' := hp + line.length
    let stripped := rstripCRLF line
    if stripped.isEmpty then ({ s with filePos := some hp' }, none)
    else ({ s with filePos := some hp', position := hp' }, some stripped)

/-- The size/read phase executed while FOLLOWING (lines 109–122). -/
def followPhase (s : WState) (fs : FS) : WState × Option (List Nat) :=
  readPhase (sizeCheckPhase s fs) fs

/-- One iteration of the `while True` loop of `watch` (lines 83–122) on a
filesystem snapshot, without an exception: reopen when the handle is
closed or rotation is detected, then (in the same iteration, unless the
cycle ended waiting or on a failed open) run the size check and the read
step. -/
def watchStep (s : WState) (fs : FS) (openOk : Bool) :
    WState × Option (List Nat) :=
  if s.filePos.isNone || isRotated s fs then
    match reopenPhase s fs openOk with
    | (s', true) => followPhase s' fs
    | (s', false) => (s', none)
  else
    followPhase s fs

/-- Iterate `watchStep` over a list of per-cycle filesystem snapshots
(opens always succeed), collecting every published line in order. -/
def runWatch (s : WState) : List FS → WState × List (List Nat)
  | [] => (s, [])
  | fs :: rest =>
    let r := watchStep s fs true
    let r' := runWatch r.1 rest
    (r'.1, (match r.2 with | some l => [l] | none => []) ++ r'.2)

/-- Join lines into a character stream, terminating each with `10`. -/
def joinLines (ls : List (List Nat)) : List Nat :=
  ls.flatMap fun l => l ++ [10]

/-- `WebSocketManager` (websocket_manager.py): the set
`active_connections`, modelled as a duplicate-free list of channel ids
(Python set iteration visits each member once, in some order). -/
structure WSManager where
  active_connections : List Nat
deriving DecidableEq, Repr

/-- `connect` (lines 11–13): `set.add` — a no-op when the channel is
already present. -/
def wsConnect (m : WSManager) (c : Nat) : WSManager :=
  { active_connections :=
      if c ∈ m.active_connections then m.active_connections
      else m.active_connections ++ [c] }

/-- `disconnect` (lines 15–16): `set.discard` — removes the channel,
silently doing nothing when it is absent. -/
def wsDisconnect (m : WSManager) (c : Nat) : WSManager :=
  { active_connections := m.active_connections.filter fun x => x ≠ c }

/-- `_send_to_all` (lines 38–49): attempt `send_text` on every connection
(`sendOk c = false` models the `except` branch), collect the failures in
`to_remove`, then `disconnect` each of them.  Returns the updated manager
and the list of channels to which a send was attempted, in iteration
order. -/
def sendToAll (m : WSManager) (sendOk : Nat → Bool) :
    WSManager × List Nat :=
  let toRemove := m.active_connections.filter fun c => !sendOk c
  (toRemove.foldl wsDisconnect m, m.active_connections)

/-- Observable actions of the connection handler in `main.py`, in the
order the handler performs them. -/
inductive WsEvent
  | subscribed (c : Nat)
  | sentHistorical (c : Nat) (lines : List (List Nat))
deriving DecidableEq, Repr

/-- `f"[{log_id}] {line}"` (main.py line 24). -/
def labelLine (logId line : List Nat) : List Nat :=
  91 :: logId ++ 93 :: 32 :: line

/-- The backlog built in main.py lines 20–24: for each configured
`(log_id, file)` pair, the last 5 lines of the file, labelled. -/
def gatherHistorical (logs : List (List Nat × Option (List Nat))) :
    List (List Nat) :=
  logs.flatMap fun p => (getLastLines p.2 5).map (labelLine p.1)

/-- `websocket_endpoint` (main.py lines 16–30) up to its receive loop:
`manager.connect(websocket)` first (accept + add to the live set), then
gather the backlog, then send the single historical message — only when
the gathered backlog is non-empty (`if historical_lines:`).  The event
trace records the order of the two externally visible actions. -/
def websocketEndpoint (m : WSManager) (c : Nat)
    (logs : List (List Nat × Option (List Nat))) :
    WSManager × List WsEvent :=
  let m1 := wsConnect m c
  let hist := gatherHistorical logs
  (m1, WsEvent.subscribed c ::
    (if hist.isEmpty then [] else [WsEvent.sentHistorical c hist]))

/-- Recognise the subscription event in a handler trace. -/
def isSubscribedEvent : WsEvent → Bool
  | WsEvent.subscribed _ => true
  | WsEvent.sentHistorical _ _ => false

/-- Recognise the historical-send event in a handler trace. -/
def isHistoricalEvent : WsEvent → Bool
  | WsEvent.subscribed _ => false
  | WsEvent.sentHistorical _ _ => true

/-- A line body free of separator and carriage-return characters. -/
def cleanLine (l : List Nat) : Prop :=
  ∀ c ∈ l, c ≠ 10 ∧ c ≠ 13

instance (l : List Nat) : Decidable (cleanLine l) := by
  unfold cleanLine; infer_instance

theorem takeLine_of_ne_nl (l : List Nat) (h : ∀ c ∈ l, c ≠ 10) :
    takeLine l = l := by
  induction l with
  | nil => rfl
  | cons c rest ih =>
    rw [takeLine, if_neg (h c (by simp))]
    exact congrArg (c :: ·) (ih fun d hd => h d (List.mem_cons_of_mem _ hd))

theorem takeLine_append (l rest : List Nat) (h : ∀ c ∈ l, c ≠ 10) :
    takeLine (l ++ 10 :: rest) = l ++ [10] := by
  induction l with
  | nil => simp [takeLine]
  | cons c tail ih =>
    rw [List.cons_append, takeLine, if_neg (h c (by simp))]
    rw [ih fun d hd => h d (List.mem_cons_of_mem _ hd)]
    rfl

theorem dropWhile_eq_self_of_all (p : Nat → Bool) (l : List Nat)
    (h : ∀ c ∈ l, p c = false) : l.dropWhile p = l := by
  cases l with
  | nil => rfl
  | cons c rest => rw [List.dropWhile_cons, h c (by simp)]; simp

theorem rstripCRLF_of_clean (l : List Nat) (h : cleanLine l) :
    rstripCRLF l = l := by
  unfold rstripCRLF
  rw [dropWhile_eq_self_of_all _ _ ?_, List.reverse_reverse]
  intro c hc
  have := h c (List.mem_reverse.mp hc)
  simp [this.1, this.2]

theorem rstripCRLF_append_nl (l : List Nat) (h : cleanLine l) :
    rstripCRLF (l ++ [10]) = l := by
  unfold rstripCRLF
  rw [List.reverse_append, List.reverse_singleton, List.singleton_append,
    List.dropWhile_cons_of_pos (by decide)]
  rw [dropWhile_eq_self_of_all _ _ ?_, List.reverse_reverse]
  intro c hc
  have := h c (List.mem_reverse.mp hc)
  simp [this.1, this.2]

theorem length_eq_of_drop (content m : List Nat) (p : Nat)
    (hdrop : content.drop p = m) (hm : m ≠ []) :
    p < content.length ∧ content.length = p + m.length := by
  have hlen : (content.drop p).length = content.length - p :=
    List.length_drop p content
  rw [hdrop] at hlen
  have hple : p < content.length := by
    by_contra hc
    push_neg at hc
    exact hm (by rw [← hdrop, List.drop_eq_nil_of_le hc])
  exact ⟨hple, by omega⟩

theorem isRotated_false_of_match (s : WState) (fs : FS)
    (hino : s.inode = some fs.ino) (hpres : fs.present = true) :
    isRotated s fs = false := by
  simp [isRotated, hino, hpres]

theorem sizeCheckPhase_seek (s : WState) (fs : FS)
    (h1 : s.position < fs.content.length) :
    sizeCheckPhase s fs = { s with filePos := some s.position } := by
  simp only [sizeCheckPhase]
  rw [if_neg (by omega), if_pos h1]

theorem sizeCheckPhase_at_end (s : WState) (fs : FS)
    (h1 : s.position = fs.content.length) :
    sizeCheckPhase s fs = s := by
  simp only [sizeCheckPhase]
  rw [if_neg (by omega), if_neg (by omega)]

theorem readPhase_line (s : WState) (fs : FS) (q : Nat) (l rest : List Nat)
    (hfp : s.filePos = some q)
    (hdrop : fs.content.drop q = l ++ 10 :: rest)
    (hl : l ≠ []) (hclean : cleanLine l) :
    readPhase s fs =
      ({ s with filePos := some (q + (l.length + 1)),
                position := q + (l.length + 1) }, some l) := by
  simp only [readPhase, hfp, Option.getD_some, hdrop]
  rw [takeLine_append _ _ fun c hc => (hclean c hc).1]
  rw [if_neg (by simp), rstripCRLF_append_nl _ hclean, if_neg (by simp [hl])]
  simp

theorem readPhase_fragment (s : WState) (fs : FS) (q : Nat) (l : List Nat)
    (hfp : s.filePos = some q)
    (hdrop : fs.content.drop q = l)
    (hl : l ≠ []) (hclean : cleanLine l) :
    readPhase s fs =
      ({ s with filePos := some (q + l.length),
                position := q + l.length }, some l) := by
  simp only [readPhase, hfp, Option.getD_some, hdrop]
  rw [takeLine_of_ne_nl _ fun c hc => (hclean c hc).1]
  rw [if_neg (by simp [hl]), rstripCRLF_of_clean _ hclean,
    if_neg (by simp [hl])]

theorem readPhase_blank (s : WState) (fs : FS) (q : Nat) (rest : List Nat)
    (hfp : s.filePos = some q)
    (hdrop : fs.content.drop q = 10 :: rest) :
    readPhase s fs = ({ s with filePos := some (q + 1) }, none) := by
  simp only [readPhase, hfp, Option.getD_some, hdrop]
  have htl : takeLine (10 :: rest) = [10] := by simp [takeLine]
  rw [htl, if_neg (by simp)]
  have hrs : rstripCRLF [10] = [] := by decide
  rw [hrs, if_pos (by simp)]
  simp

theorem readPhase_eof (s : WState) (fs : FS) (q : Nat)
    (hfp : s.filePos = some q)
    (hdrop : fs.content.drop q = []) :
    readPhase s fs = (s, none) := by
  simp only [readPhase, hfp, Option.getD_some, hdrop]
  rw [if_pos (by simp [takeLine])]

theorem watchStep_following (s : WState) (fs : FS) (ok : Bool) (q : Nat)
    (hino : s.inode = some fs.ino) (hpres : fs.present = true)
    (hfp : s.filePos = some q) :
    watchStep s fs ok = followPhase s fs := by
  unfold watchStep
  rw [isRotated_false_of_match s fs hino hpres, hfp]
  simp

theorem watchStep_publish_line (s : WState) (fs : FS) (ok : Bool) (q : Nat)
    (l rest : List Nat)
    (hino : s.inode = some fs.ino) (hpres : fs.present = true)
    (hfp : s.filePos = some q)
    (hdrop : fs.content.drop s.position = l ++ 10 :: rest)
    (hl : l ≠ []) (hclean : cleanLine l) :
    watchStep s fs ok =
      ({ s with filePos := some (s.position + (l.length + 1)),
                position := s.position + (l.length + 1) }, some l) := by
  obtain ⟨hlt, hlen⟩ := length_eq_of_drop _ _ _ hdrop (by simp)
  rw [watchStep_following s fs ok q hino hpres hfp]
  unfold followPhase
  rw [sizeCheckPhase_seek s fs (by omega)]
  rw [readPhase_line _ fs s.position l rest rfl hdrop hl hclean]

theorem watchStep_publish_fragment (s : WState) (fs : FS) (ok : Bool)
    (q : Nat) (l : List Nat)
    (hino : s.inode = some fs.ino) (hpres : fs.present = true)
    (hfp : s.filePos = some q)
    (hdrop : fs.content.drop s.position = l)
    (hl : l ≠ []) (hclean : cleanLine l) :
    watchStep s fs ok =
      ({ s with filePos := some (s.position + l.length),
                position := s.position + l.length }, some l) := by
  obtain ⟨hlt, hlen⟩ := length_eq_of_drop _ _ _ hdrop hl
  rw [watchStep_following s fs ok q hino hpres hfp]
  unfold followPhase
  rw [sizeCheckPhase_seek s fs (by omega)]
  rw [readPhase_fragment _ fs s.position l rfl hdrop hl hclean]

theorem watchStep_blank_cycle (s : WState) (fs : FS) (ok : Bool) (q : Nat)
    (rest : List Nat)
    (hino : s.inode = some fs.ino) (hpres : fs.present = true)
    (hfp : s.filePos = some q)
    (hdrop : fs.content.drop s.position = 10 :: rest) :
    watchStep s fs ok = ({ s with filePos := some (s.position + 1) }, none) := by
  obtain ⟨hlt, hlen⟩ := length_eq_of_drop _ _ _ hdrop (by simp)
  rw [watchStep_following s fs ok q hino hpres hfp]
  unfold followPhase
  rw [sizeCheckPhase_seek s fs (by omega)]
  exact readPhase_blank _ fs s.position rest rfl hdrop

theorem watchStep_stationary (s : WState) (fs : FS) (ok : Bool)
    (hino : s.inode = some fs.ino) (hpres : fs.present = true)
    (hfp : s.filePos = some fs.content.length)
    (hpos : s.position = fs.content.length) :
    watchStep s fs ok = (s, none) := by
  rw [watchStep_following s fs ok _ hino hpres hfp]
  unfold followPhase
  rw [sizeCheckPhase_at_end s fs hpos]
  exact readPhase_eof s fs _ hfp (List.drop_length _)

theorem joinLines_cons (l : List Nat) (ls : List (List Nat)) :
    joinLines (l :: ls) = l ++ 10 :: joinLines ls := by
  simp [joinLines]

theorem runWatch_replicate_lines (fs : FS) (hpres : fs.present = true) :
    ∀ (ls : List (List Nat)) (s : WState) (q : Nat),
      s.inode = some fs.ino → s.filePos = some q →
      (∀ l ∈ ls, l ≠ [] ∧ cleanLine l) →
      fs.content.drop s.position = joinLines ls →
      (runWatch s (List.replicate ls.length fs)).2 = ls ∧
        (runWatch s (List.replicate ls.length fs)).1.position =
          s.position + (joinLines ls).length := by
  intro ls
  induction ls with
  | nil => intro s q _ _ _ _; simp [runWatch, joinLines]
  | cons l tail ih =>
    intro s q hino hfp hcl hdrop
    rw [joinLines_cons] at hdrop
    have hstep := watchStep_publish_line s fs true q l (joinLines tail)
      hino hpres hfp hdrop (hcl l (by simp)).1 (hcl l (by simp)).2
    have hdrop' :
        fs.content.drop (s.position + (l.length + 1)) = joinLines tail := by
      rw [← List.drop_drop, hdrop]
      have : l.length + 1 = (l ++ [10]).length := by simp
      rw [show l ++ 10 :: joinLines tail = (l ++ [10]) ++ joinLines tail by
        simp, this, List.drop_left]
    have hih := ih ⟨s.inode, some (s.position + (l.length + 1)), s.firstOpen,
        s.position + (l.length + 1)⟩
      (s.position + (l.length + 1)) hino rfl
      (fun m hm => hcl m (List.mem_cons_of_mem _ hm)) hdrop'
    constructor
    · simp only [List.length_cons, List.replicate_succ, runWatch, hstep]
      simpa using hih.1
    · simp only [List.length_cons, List.replicate_succ, runWatch, hstep]
      have := hih.2
      simp only [this]
      rw [joinLines_cons]
      simp
      omega

theorem reopenPhase_after_error (s : WState) (fs : FS)
    (hfo : s.firstOpen = false) (hpres : fs.present = true) :
    reopenPhase (errorRecover s) fs true =
      (⟨some fs.ino, some 0, false, 0⟩, true) := by
  simp [reopenPhase, errorRecover, closeFileW, openFileW, hfo, hpres]

theorem reopenPhase_rotation (s : WState) (fs : FS) (q : Nat)
    (hfp : s.filePos = some q) (hfo : s.firstOpen = false)
    (hpres : fs.present = true) :
    reopenPhase s fs true = (⟨some fs.ino, some 0, false, 0⟩, true) := by
  simp [reopenPhase, closeFileW, openFileW, hfp, hfo, hpres]

theorem reopenPhase_first (fs : FS) (hpres : fs.present = true) :
    reopenPhase initialWState fs true =
      (⟨some fs.ino, some fs.content.length, false, fs.content.length⟩,
        true) := by
  simp [reopenPhase, initialWState, closeFileW, openFileW, hpres]

theorem watchStep_reopen_after_error (s : WState) (fs : FS)
    (hfo : s.firstOpen = false) (hpres : fs.present = true) :
    watchStep (errorRecover s) fs true =
      followPhase ⟨some fs.ino, some 0, false, 0⟩ fs := by
  unfold watchStep
  rw [if_pos (by simp [errorRecover, closeFileW])]
  rw [reopenPhase_after_error s fs hfo hpres]

theorem watchStep_rotation (s : WState) (fs : FS) (q i : Nat)
    (hfp : s.filePos = some q) (hino : s.inode = some i)
    (hne : fs.ino ≠ i) (hfo : s.firstOpen = false)
    (hpres : fs.present = true) :
    watchStep s fs true = followPhase ⟨some fs.ino, some 0, false, 0⟩ fs := by
  unfold watchStep
  rw [if_pos (by simp [isRotated, hino, hne, hpres])]
  rw [reopenPhase_rotation s fs q hfp hfo hpres]

theorem watchStep_first_open (fs : FS) (hpres : fs.present = true) :
    watchStep initialWState fs true =
      (⟨some fs.ino, some fs.content.length, false, fs.content.length⟩,
        none) := by
  unfold watchStep
  rw [if_pos (by simp [initialWState])]
  rw [reopenPhase_first fs hpres]
  show followPhase _ fs = _
  unfold followPhase
  rw [sizeCheckPhase_at_end _ fs rfl]
  exact readPhase_eof _ fs _ rfl (List.drop_length _)

theorem reopenPhase_true_inode (s : WState) (fs : FS) (ok : Bool) :
    (reopenPhase s fs ok).2 = true →
    (reopenPhase s fs ok).1.inode.isSome := by
  unfold reopenPhase openFileW closeFileW
  cases hsp : s.filePos <;> cases hp : fs.present <;> cases ok <;>
    simp [hsp, hp] <;> split <;> simp

theorem reopenPhase_false_filePos (s : WState) (fs : FS) (ok : Bool) :
    (reopenPhase s fs ok).2 = false →
    (reopenPhase s fs ok).1.filePos = none := by
  unfold reopenPhase openFileW closeFileW
  cases hsp : s.filePos <;> cases hp : fs.present <;> cases ok <;>
    simp [hsp, hp]

theorem followPhase_inode (s : WState) (fs : FS) :
    (followPhase s fs).1.inode = s.inode := by
  simp only [followPhase, readPhase, sizeCheckPhase]
  repeat' split
  all_goals rfl

theorem watchStep_preserves_inv (s : WState) (fs : FS) (ok : Bool)
    (h : s.filePos.isSome → s.inode.isSome) :
    (watchStep s fs ok).1.filePos.isSome →
      (watchStep s fs ok).1.inode.isSome := by
  unfold watchStep
  split
  · rcases hr : reopenPhase s fs ok with ⟨s', b⟩
    have hinv := reopenPhase_true_inode s fs ok
    have hfpn := reopenPhase_false_filePos s fs ok
    rw [hr] at hinv hfpn
    cases b
    · simp only [Prod.snd, Prod.fst] at hfpn
      show ((s', none) : WState × Option (List Nat)).1.filePos.isSome = true →
        ((s', none) : WState × Option (List Nat)).1.inode.isSome = true
      intro hsome
      simp only [Prod.fst] at hsome
      rw [hfpn trivial] at hsome
      simp at hsome
    · simp only [Prod.snd, Prod.fst] at hinv
      show (followPhase s' fs).1.filePos.isSome = true →
        (followPhase s' fs).1.inode.isSome = true
      intro _
      rw [followPhase_inode]
      exact hinv trivial
  · rename_i hcond
    intro _
    rw [followPhase_inode]
    apply h
    simp only [Bool.or_eq_true, not_or] at hcond
    cases hpv : s.filePos with
    | none => exact absurd (by simp [hpv]) hcond.1
    | some v => simp

theorem mem_foldl_wsDisconnect (cs : List Nat) :
    ∀ (m : WSManager) (x : Nat),
      x ∈ (cs.foldl wsDisconnect m).active_connections ↔
        x ∈ m.active_connections ∧ x ∉ cs := by
  induction cs with
  | nil => intro m x; simp
  | cons c cs ih =>
    intro m x
    rw [List.foldl_cons, ih]
    simp only [wsDisconnect, List.mem_filter, List.mem_cons, not_or,
      decide_eq_true_eq]
    tauto

/-- C3: `_send_to_all` delivery is best-effort per channel: with zero
subscribers it performs no sends (and, being a total function, raises no
error); a send is attempted on every member of the subscriber set whatever
the other sends do; a channel whose send fails is removed from the set
before the publish call returns; and `disconnect` of an absent channel is
a no-op rather than an error. -/
theorem publish_best_effort :
    (∀ f : Nat → Bool, sendToAll ⟨[]⟩ f = (⟨[]⟩, [])) ∧
    (∀ (m : WSManager) (f : Nat → Bool),
      (sendToAll m f).2 = m.active_connections) ∧
    (∀ (m : WSManager) (f : Nat → Bool) (c : Nat),
      c ∈ m.active_connections → f c = false →
      c ∉ (sendToAll m f).1.active_connections) ∧
    (∀ (m : WSManager) (c : Nat), c ∉ m.active_connections →
      wsDisconnect m c = m) := by
  refine ⟨fun f => rfl, fun m f => rfl, ?_, ?_⟩
  · intro m f c hmem hfail
    simp only [sendToAll]
    rw [mem_foldl_wsDisconnect]
    rintro ⟨_, habs⟩
    exact habs (List.mem_filter.mpr ⟨hmem, by simp [hfail]⟩)
  · intro m c hout
    cases m with
    | mk conns =>
      simp only [wsDisconnect, WSManager.mk.injEq]
      apply List.filter_eq_self.mpr
      intro a ha
      simp only [decide_eq_true_eq]
      exact fun hcc => hout (hcc ▸ ha)

/-- Witness for C3 at concrete inputs: subscriber 2's send fails and 2 is
removed while 1 and 3 were still attempted; discarding absent channel 4
changes nothing. -/
theorem publish_best_effort_witness :
    (2 ∈ (⟨[1, 2, 3]⟩ : WSManager).active_connections ∧
      (fun c => decide (c ≠ 2)) 2 = false ∧
      2 ∉ (sendToAll ⟨[1, 2, 3]⟩ fun c => decide (c ≠ 2)).1.active_connections) ∧
    (4 ∉ (⟨[1, 2, 3]⟩ : WSManager).active_connections ∧
      wsDisconnect ⟨[1, 2, 3]⟩ 4 = ⟨[1, 2, 3]⟩) :=
  ⟨⟨by decide, by decide,
      publish_best_effort.2.2.1 ⟨[1, 2, 3]⟩ (fun c => decide (c ≠ 2)) 2
        (by decide) (by decide)⟩,
    ⟨by decide, publish_best_effort.2.2.2 ⟨[1, 2, 3]⟩ 4 (by decide)⟩⟩

/-- C7 is false as stated: the error handler (`_close_file`) clears the
handle but leaves `self.inode` recorded, so after an exception cycle the
handle is null while the identity is not — the claimed iff fails at this
reachable state. -/
theorem close_keeps_identity_cex :
    (errorRecover ⟨some 7, some 4, false, 4⟩).filePos = none ∧
    (errorRecover ⟨some 7, some 4, false, 4⟩).inode = some 7 ∧
    ¬ ((errorRecover ⟨some 7, some 4, false, 4⟩).filePos.isSome ↔
        (errorRecover ⟨some 7, some 4, false, 4⟩).inode.isSome) := by
  decide

/-- C7 (amended): only one direction is invariant: a non-null handle
implies a non-null identity, preserved by every poll cycle and (vacuously)
by the error handler; a successful open sets both, a failed open clears
both, and the initial state has both null — but closing leaves the
identity recorded, so identity may be non-null while the handle is
null. -/
theorem handle_identity_one_way_invariant :
    (∀ (s : WState) (fs : FS) (ok : Bool),
      (s.filePos.isSome → s.inode.isSome) →
      ((watchStep s fs ok).1.filePos.isSome →
        (watchStep s fs ok).1.inode.isSome)) ∧
    (∀ s : WState,
      (errorRecover s).filePos.isSome → (errorRecover s).inode.isSome) ∧
    (∀ (s : WState) (fs : FS), (openFileW s fs true).filePos = some 0 ∧
      (openFileW s fs true).inode = some fs.ino) ∧
    (∀ (s : WState) (fs : FS), (openFileW s fs false).filePos = none ∧
      (openFileW s fs false).inode = none) ∧
    (∀ s : WState, (closeFileW s).filePos = none ∧
      (closeFileW s).inode = s.inode) ∧
    (initialWState.filePos = none ∧ initialWState.inode = none) := by
  refine ⟨watchStep_preserves_inv, ?_, fun s fs => ⟨rfl, rfl⟩,
    fun s fs => ⟨rfl, rfl⟩, fun s => ⟨rfl, rfl⟩, rfl, rfl⟩
  intro s h
  simp [errorRecover, closeFileW] at h

/-- Witness for C7's amended invariant at a concrete following state and a
cycle that reads one line. -/
theorem handle_identity_one_way_invariant_witness :
    ((⟨some 1, some 0, false, 0⟩ : WState).filePos.isSome →
      (⟨some 1, some 0, false, 0⟩ : WState).inode.isSome) ∧
    ((watchStep ⟨some 1, some 0, false, 0⟩ ⟨true, 1, [97, 10]⟩
        true).1.filePos.isSome →
      (watchStep ⟨some 1, some 0, false, 0⟩ ⟨true, 1, [97, 10]⟩
        true).1.inode.isSome) :=
  ⟨by decide,
    handle_identity_one_way_invariant.1 ⟨some 1, some 0, false, 0⟩
      ⟨true, 1, [97, 10]⟩ true (by decide)⟩

/-- C8 is false on the code: `websocket_endpoint` calls `manager.connect`
(which adds the channel to the live set) before it gathers and sends the
historical message — in the trace the subscription event is first, the
historical send second, not the other way round. -/
theorem subscribe_before_historical_cex :
    (websocketEndpoint ⟨[]⟩ 7 [([97], some [104, 105, 10])]).2 =
      [WsEvent.subscribed 7,
        WsEvent.sentHistorical 7 [[91, 97, 93, 32, 104, 105]]] ∧
    (websocketEndpoint ⟨[]⟩ 7 [([97], some [104, 105, 10])]).2.findIdx
        isSubscribedEvent = 0 ∧
    (websocketEndpoint ⟨[]⟩ 7 [([97], some [104, 105, 10])]).2.findIdx
        isHistoricalEvent = 1 ∧
    ¬ ((websocketEndpoint ⟨[]⟩ 7 [([97], some [104, 105, 10])]).2.findIdx
          isHistoricalEvent <
        (websocketEndpoint ⟨[]⟩ 7 [([97], some [104, 105, 10])]).2.findIdx
          isSubscribedEvent) := by
  decide

/-- C8 (amended): the handler first adds the channel to the registry (as
part of `connect`), and only then gathers and sends the historical
backlog; hence a realtime message broadcast between the two can reach the
channel before its backlog. -/
theorem endpoint_subscribes_then_sends_historical (m : WSManager) (c : Nat)
    (logs : List (List Nat × Option (List Nat)))
    (hne : (gatherHistorical logs).isEmpty = false) :
    (websocketEndpoint m c logs).1 = wsConnect m c ∧
    (websocketEndpoint m c logs).2 =
      [WsEvent.subscribed c,
        WsEvent.sentHistorical c (gatherHistorical logs)] := by
  refine ⟨rfl, ?_⟩
  simp [websocketEndpoint, hne]

/-- Witness for C8's amended ordering at a concrete connection. -/
theorem endpoint_subscribes_then_sends_historical_witness :
    (gatherHistorical [([97], some [104, 105, 10])]).isEmpty = false ∧
    ((websocketEndpoint ⟨[]⟩ 7 [([97], some [104, 105, 10])]).1 =
        wsConnect ⟨[]⟩ 7 ∧
      (websocketEndpoint ⟨[]⟩ 7 [([97], some [104, 105, 10])]).2 =
        [WsEvent.subscribed 7, WsEvent.sentHistorical 7
          (gatherHistorical [([97], some [104, 105, 10])])]) :=
  ⟨by decide,
    endpoint_subscribes_then_sends_historical ⟨[]⟩ 7
      [([97], some [104, 105, 10])] (by decide)⟩

/-- C2 is false on the code: with `"a"` at end-of-file and no terminator,
the poll cycle publishes the unterminated fragment `[97]` instead of
waiting for the terminator. -/
theorem watch_unterminated_fragment_cex :
    10 ∉ (⟨true, 1, [97]⟩ : FS).content ∧
    watchStep ⟨some 1, some 0, false, 0⟩ ⟨true, 1, [97]⟩ true =
      (⟨some 1, some 1, false, 1⟩, some [97]) := by
  decide

/-- C2 (amended): `readline()` at end-of-file returns the trailing
unterminated data, and the watcher publishes it at once and advances its
position past it; when the line's remainder and terminator arrive on a
later cycle, the remainder is published as a second message — one logical
line split across two delivered messages. -/
theorem watch_publishes_unterminated_fragment (s : WState) (fs : FS)
    (ok : Bool) (q : Nat) (l l' : List Nat)
    (hino : s.inode = some fs.ino) (hpres : fs.present = true)
    (hfp : s.filePos = some q)
    (hdrop : fs.content.drop s.position = l)
    (hl : l ≠ []) (hclean : cleanLine l)
    (hl' : l' ≠ []) (hclean' : cleanLine l') :
    watchStep s fs ok =
      ({ s with filePos := some (s.position + l.length),
                position := s.position + l.length }, some l) ∧
    watchStep { s with filePos := some (s.position + l.length),
                       position := s.position + l.length }
        { fs with content := fs.content ++ l' ++ [10] } ok =
      ({ s with filePos := some (s.position + l.length + (l'.length + 1)),
                position := s.position + l.length + (l'.length + 1) },
        some l') := by
  obtain ⟨hlt, hlen⟩ := length_eq_of_drop _ _ _ hdrop hl
  refine ⟨watchStep_publish_fragment s fs ok q l hino hpres hfp hdrop hl
    hclean, ?_⟩
  have hdrop2 : ({ fs with content := fs.content ++ l' ++ [10] } :
      FS).content.drop (s.position + l.length) = l' ++ 10 :: [] := by
    show ((fs.content ++ l') ++ [10]).drop (s.position + l.length) = l' ++ [10]
    rw [List.append_assoc, ← hlen, List.drop_left]
  exact watchStep_publish_line _ _ ok _ l' [] (by simpa using hino)
    (by simpa using hpres) rfl hdrop2 hl' hclean'

/-- Witness for C2's amended behaviour: `"a"` is published as a fragment,
then after `"bc\n"` arrives the remainder `"bc"` is published separately. -/
theorem watch_publishes_unterminated_fragment_witness :
    (([97] : List Nat) ≠ [] ∧ cleanLine [97] ∧
      ([98, 99] : List Nat) ≠ [] ∧ cleanLine [98, 99]) ∧
    (watchStep ⟨some 1, some 0, false, 0⟩ ⟨true, 1, [97]⟩ true =
        (⟨some 1, some 1, false, 1⟩, some [97]) ∧
      watchStep ⟨some 1, some 1, false, 1⟩ ⟨true, 1, [97, 98, 99, 10]⟩ true =
        (⟨some 1, some 4, false, 4⟩, some [98, 99])) :=
  ⟨⟨by decide, by decide, by decide, by decide⟩, by
    have h := watch_publishes_unterminated_fragment
      ⟨some 1, some 0, false, 0⟩ ⟨true, 1, [97]⟩ true 0 [97] [98, 99]
      rfl rfl rfl rfl (by decide) (by decide) (by decide) (by decide)
    exact h⟩

/-- C5: when the observed size drops strictly below the recorded offset
while identity is unchanged, the same poll cycle resets `position` to 0,
seeks the handle to the start, and proceeds to read from the beginning. -/
theorem truncation_resets_to_start (s : WState) (fs : FS) (ok : Bool)
    (q : Nat) (hino : s.inode = some fs.ino) (hpres : fs.present = true)
    (hfp : s.filePos = some q)
    (hshrunk : fs.content.length < s.position) :
    sizeCheckPhase s fs = { s with filePos := some 0, position := 0 } ∧
    watchStep s fs ok =
      readPhase { s with filePos := some 0, position := 0 } fs := by
  have hsc : sizeCheckPhase s fs =
      { s with filePos := some 0, position := 0 } := by
    simp only [sizeCheckPhase]
    rw [if_pos hshrunk]
  refine ⟨hsc, ?_⟩
  rw [watchStep_following s fs ok q hino hpres hfp]
  unfold followPhase
  rw [hsc]

/-- Witness for C5: a file of size 2 with recorded offset 4 is re-read
from the start in the same cycle (its first line `"x"` is published). -/
theorem truncation_resets_to_start_witness :
    ((⟨some 7, some 4, false, 4⟩ : WState).inode =
        some (⟨true, 7, [120, 10]⟩ : FS).ino ∧
      (⟨true, 7, [120, 10]⟩ : FS).content.length <
        (⟨some 7, some 4, false, 4⟩ : WState).position) ∧
    (sizeCheckPhase ⟨some 7, some 4, false, 4⟩ ⟨true, 7, [120, 10]⟩ =
        ⟨some 7, some 0, false, 0⟩ ∧
      watchStep ⟨some 7, some 4, false, 4⟩ ⟨true, 7, [120, 10]⟩ true =
        readPhase ⟨some 7, some 0, false, 0⟩ ⟨true, 7, [120, 10]⟩) :=
  ⟨⟨rfl, by decide⟩,
    truncation_resets_to_start ⟨some 7, some 4, false, 4⟩
      ⟨true, 7, [120, 10]⟩ true 4 rfl rfl rfl (by decide)⟩

theorem runWatch_stationary (fs : FS) (s : WState)
    (hino : s.inode = some fs.ino) (hpres : fs.present = true)
    (hfp : s.filePos = some fs.content.length)
    (hpos : s.position = fs.content.length) :
    ∀ k, runWatch s (List.replicate k fs) = (s, []) := by
  intro k
  induction k with
  | zero => rfl
  | succ k ih =>
    rw [List.replicate_succ]
    simp only [runWatch, watchStep_stationary s fs true hino hpres hfp hpos,
      ih]
    rfl

theorem runWatch_blank_stuck (fs : FS) (hpres : fs.present = true) :
    ∀ (k : Nat) (s : WState) (q : Nat) (rest : List Nat),
      s.inode = some fs.ino → s.filePos = some q →
      fs.content.drop s.position = 10 :: rest →
      (runWatch s (List.replicate k fs)).2 = [] ∧
        (runWatch s (List.replicate k fs)).1.position = s.position := by
  intro k
  induction k with
  | zero => intro s q rest _ _ _; exact ⟨rfl, rfl⟩
  | succ k ih =>
    intro s q rest hino hfp hdrop
    have hstep := watchStep_blank_cycle s fs true q rest hino hpres hfp hdrop
    have hih := ih ⟨s.inode, some (s.position + 1), s.firstOpen, s.position⟩
      (s.position + 1) rest hino rfl hdrop
    rw [List.replicate_succ]
    simp only [runWatch, hstep]
    exact ⟨by simpa using hih.1, by simpa using hih.2⟩

/-- C4: when the path resolves to a different inode while the watcher is
FOLLOWING, that poll cycle closes the old handle, reopens the path,
records the new identity, and resumes reading at offset 0 of the new
file; in particular when the new file starts with a terminated non-blank
line, that first line is published in the same cycle. -/
theorem rotation_restarts_from_zero (s : WState) (fs : FS) (q i : Nat)
    (hfp : s.filePos = some q) (hino : s.inode = some i) (hne : fs.ino ≠ i)
    (hfo : s.firstOpen = false) (hpres : fs.present = true) :
    reopenPhase s fs true = (⟨some fs.ino, some 0, false, 0⟩, true) ∧
    watchStep s fs true = followPhase ⟨some fs.ino, some 0, false, 0⟩ fs ∧
    (∀ l rest, fs.content = l ++ 10 :: rest → l ≠ [] → cleanLine l →
      watchStep s fs true =
        (⟨some fs.ino, some (l.length + 1), false, l.length + 1⟩, some l)) := by
  refine ⟨reopenPhase_rotation s fs q hfp hfo hpres,
    watchStep_rotation s fs q i hfp hino hne hfo hpres, ?_⟩
  intro l rest hc hl hclean
  rw [watchStep_rotation s fs q i hfp hino hne hfo hpres]
  unfold followPhase
  have hlt : (⟨some fs.ino, some 0, false, 0⟩ : WState).position <
      fs.content.length := by rw [hc]; simp
  rw [sizeCheckPhase_seek _ fs hlt]
  have h := readPhase_line ⟨some fs.ino, some 0, false, 0⟩ fs 0 l rest rfl
    (by rw [List.drop_zero, hc]) hl hclean
  simpa using h

/-- Witness for C4: the file at inode 7 is replaced by inode 8 containing
`"x\n"`; the same cycle records inode 8 and publishes `"x"` read from
offset 0. -/
theorem rotation_restarts_from_zero_witness :
    ((⟨true, 8, [120, 10]⟩ : FS).ino ≠ 7 ∧
      (⟨some 7, some 4, false, 4⟩ : WState).firstOpen = false) ∧
    watchStep ⟨some 7, some 4, false, 4⟩ ⟨true, 8, [120, 10]⟩ true =
      (⟨some 8, some 2, false, 2⟩, some [120]) :=
  ⟨⟨by decide, rfl⟩, by
    have h := (rotation_restarts_from_zero ⟨some 7, some 4, false, 4⟩
      ⟨true, 8, [120, 10]⟩ 4 7 rfl rfl (by decide) rfl rfl).2.2 [120] []
      rfl (by decide) (by decide)
    exact h⟩

/-- C6: the watcher's first-ever successful open seeks to end-of-file, so
`position` becomes the file size, no pre-existing content is ever
published over the live channel while the file is unchanged, and a line
appended afterwards is published. -/
theorem first_open_seeks_to_end (fs : FS) (hpres : fs.present = true) :
    reopenPhase initialWState fs true =
      (⟨some fs.ino, some fs.content.length, false, fs.content.length⟩,
        true) ∧
    watchStep initialWState fs true =
      (⟨some fs.ino, some fs.content.length, false, fs.content.length⟩,
        none) ∧
    (∀ k, (runWatch initialWState (List.replicate k fs)).2 = []) ∧
    (∀ l, l ≠ [] → cleanLine l →
      watchStep
          ⟨some fs.ino, some fs.content.length, false, fs.content.length⟩
          { fs with content := fs.content ++ (l ++ [10]) } true =
        (⟨some fs.ino, some (fs.content.length + (l.length + 1)), false,
            fs.content.length + (l.length + 1)⟩, some l)) := by
  refine ⟨reopenPhase_first fs hpres, watchStep_first_open fs hpres, ?_, ?_⟩
  · intro k
    cases k with
    | zero => rfl
    | succ k =>
      rw [List.replicate_succ]
      simp only [runWatch, watchStep_first_open fs hpres]
      rw [runWatch_stationary fs _ rfl hpres rfl rfl k]
      rfl
  · intro l hl hclean
    have hdrop : ({ fs with content := fs.content ++ (l ++ [10]) } :
        FS).content.drop
        (⟨some fs.ino, some fs.content.length, false, fs.content.length⟩ :
          WState).position = l ++ 10 :: [] := by
      show (fs.content ++ (l ++ [10])).drop fs.content.length = l ++ [10]
      rw [List.drop_left]
    have h := watchStep_publish_line
      ⟨some fs.ino, some fs.content.length, false, fs.content.length⟩
      { fs with content := fs.content ++ (l ++ [10]) } true
      fs.content.length l [] rfl hpres rfl hdrop hl hclean
    simpa using h

/-- Witness for C6: first open of `"a\nb\n"` seeks to its end (position
4), three idle cycles publish nothing, and an appended `"c\n"` is
published. -/
theorem first_open_seeks_to_end_witness :
    ((⟨true, 7, [97, 10, 98, 10]⟩ : FS).present = true ∧
      ([99] : List Nat) ≠ [] ∧ cleanLine [99]) ∧
    (watchStep initialWState ⟨true, 7, [97, 10, 98, 10]⟩ true =
        (⟨some 7, some 4, false, 4⟩, none) ∧
      (runWatch initialWState
        (List.replicate 3 (⟨true, 7, [97, 10, 98, 10]⟩ : FS))).2 = [] ∧
      watchStep ⟨some 7, some 4, false, 4⟩
          ⟨true, 7, [97, 10, 98, 10, 99, 10]⟩ true =
        (⟨some 7, some 6, false, 6⟩, some [99])) :=
  ⟨⟨rfl, by decide, by decide⟩, by
    have h := first_open_seeks_to_end ⟨true, 7, [97, 10, 98, 10]⟩ rfl
    exact ⟨h.2.1, h.2.2.1 3, h.2.2.2 [99] (by decide) (by decide)⟩⟩

/-- C9: a complete terminated line that is blank after stripping leaves
`self.position` unchanged (only the handle advances), so every later
cycle on the same file seeks back and re-reads the same blank line:
nothing is ever published from that point on and the position never
moves past the blank line. -/
theorem blank_line_stalls_watcher (s : WState) (fs : FS) (ok : Bool)
    (q : Nat) (rest : List Nat)
    (hino : s.inode = some fs.ino) (hpres : fs.present = true)
    (hfp : s.filePos = some q)
    (hdrop : fs.content.drop s.position = 10 :: rest) :
    watchStep s fs ok = ({ s with filePos := some (s.position + 1) }, none) ∧
    (∀ k, (runWatch s (List.replicate k fs)).2 = [] ∧
      (runWatch s (List.replicate k fs)).1.position = s.position) :=
  ⟨watchStep_blank_cycle s fs ok q rest hino hpres hfp hdrop,
    fun k => runWatch_blank_stuck fs hpres k s q rest hino hfp hdrop⟩

/-- Witness for C9: with `"a\n\nb\n"` and position 2 (the blank line),
one cycle publishes nothing and leaves position 2, and so do four
cycles — `"b"` is never published. -/
theorem blank_line_stalls_watcher_witness :
    ((⟨true, 1, [97, 10, 10, 98, 10]⟩ : FS).content.drop 2 =
        10 :: [98, 10]) ∧
    (watchStep ⟨some 1, some 5, false, 2⟩ ⟨true, 1, [97, 10, 10, 98, 10]⟩
        true = (⟨some 1, some 3, false, 2⟩, none) ∧
      (runWatch ⟨some 1, some 5, false, 2⟩
        (List.replicate 4 (⟨true, 1, [97, 10, 10, 98, 10]⟩ : FS))).2 = [] ∧
      (runWatch ⟨some 1, some 5, false, 2⟩
        (List.replicate 4
          (⟨true, 1, [97, 10, 10, 98, 10]⟩ : FS))).1.position = 2) :=
  ⟨rfl, by
    have h := blank_line_stalls_watcher ⟨some 1, some 5, false, 2⟩
      ⟨true, 1, [97, 10, 10, 98, 10]⟩ true 5 [98, 10] rfl rfl rfl rfl
    exact ⟨h.1, (h.2 4).1, (h.2 4).2⟩⟩

/-- C10: after an exception cycle (handle closed, identity kept,
`first_open` already false) the next successful cycle reopens the path
with neither the first-open nor the rotation seek, so `position` is set
to 0 and the file's still-present lines are all published again. -/
theorem error_reopen_republishes (s : WState) (fs : FS)
    (hfo : s.firstOpen = false) (hpres : fs.present = true) :
    reopenPhase (errorRecover s) fs true =
      (⟨some fs.ino, some 0, false, 0⟩, true) ∧
    watchStep (errorRecover s) fs true =
      followPhase ⟨some fs.ino, some 0, false, 0⟩ fs ∧
    (∀ ls : List (List Nat), (∀ l ∈ ls, l ≠ [] ∧ cleanLine l) →
      fs.content = joinLines ls →
      (runWatch (errorRecover s) (List.replicate ls.length fs)).2 = ls) := by
  refine ⟨reopenPhase_after_error s fs hfo hpres,
    watchStep_reopen_after_error s fs hfo hpres, ?_⟩
  intro ls hcl hc
  cases ls with
  | nil => rfl
  | cons l tail =>
    have heq : watchStep (errorRecover s) fs true =
        watchStep ⟨some fs.ino, some 0, false, 0⟩ fs true := by
      rw [watchStep_reopen_after_error s fs hfo hpres,
        watchStep_following ⟨some fs.ino, some 0, false, 0⟩ fs true 0 rfl
          hpres rfl]
    have hrun := (runWatch_replicate_lines fs hpres (l :: tail)
      ⟨some fs.ino, some 0, false, 0⟩ 0 rfl rfl hcl (by simpa using hc)).1
    rw [show (l :: tail).length = tail.length + 1 from rfl,
      List.replicate_succ] at hrun ⊢
    simp only [runWatch] at hrun ⊢
    rw [heq]
    exact hrun

/-- Witness for C10: an exception while following `"a\nb\n"` at position 4
is followed by a reopen at position 0, and two cycles republish `"a"` and
`"b"`. -/
theorem error_reopen_republishes_witness :
    ((⟨some 7, some 4, false, 4⟩ : WState).firstOpen = false ∧
      (⟨true, 7, [97, 10, 98, 10]⟩ : FS).content = joinLines [[97], [98]]) ∧
    (reopenPhase (errorRecover ⟨some 7, some 4, false, 4⟩)
        ⟨true, 7, [97, 10, 98, 10]⟩ true = (⟨some 7, some 0, false, 0⟩, true) ∧
      (runWatch (errorRecover ⟨some 7, some 4, false, 4⟩)
        (List.replicate 2 (⟨true, 7, [97, 10, 98, 10]⟩ : FS))).2 =
        [[97], [98]]) :=
  ⟨⟨rfl, by decide⟩, by
    have h := error_reopen_republishes ⟨some 7, some 4, false, 4⟩
      ⟨true, 7, [97, 10, 98, 10]⟩ rfl rfl
    exact ⟨h.1, h.2.2 [[97], [98]] (by decide) (by decide)⟩⟩

theorem utf8DecodeIgnoreAux_ascii :
    ∀ (fuel : Nat) (l : List Nat), l.length ≤ fuel →
      (∀ c ∈ l, c < 128) → utf8DecodeIgnoreAux fuel l = l := by
  intro fuel
  induction fuel with
  | zero =>
    intro l hl _
    have : l = [] := List.length_eq_zero.mp (Nat.le_zero.mp hl)
    subst this
    rfl
  | succ fuel ih =>
    intro l hl hascii
    cases l with
    | nil => rfl
    | cons b rest =>
      simp only [utf8DecodeIgnoreAux]
      rw [if_pos (hascii b (by simp))]
      exact congrArg (b :: ·)
        (ih rest (by simpa using hl)
          fun c hc => hascii c (List.mem_cons_of_mem _ hc))

theorem utf8DecodeIgnore_ascii (l : List Nat) (h : ∀ c ∈ l, c < 128) :
    utf8DecodeIgnore l = l :=
  utf8DecodeIgnoreAux_ascii l.length l le_rfl h

theorem splitOnNL_no_nl (l : List Nat) (h : ∀ c ∈ l, c ≠ 10) :
    splitOnNL l = [l] := by
  induction l with
  | nil => rfl
  | cons c rest ih =>
    simp only [splitOnNL]
    rw [if_neg (h c (by simp)), ih fun d hd => h d (List.mem_cons_of_mem _ hd)]

theorem isBlankLine_false_of_mem (l : List Nat) (c : Nat) (hc : c ∈ l)
    (hs : isPySpace c = false) : isBlankLine l = false := by
  unfold isBlankLine
  rw [List.all_eq_false]
  exact ⟨c, hc, by simp [hs]⟩

theorem replicate_ascii (k : Nat) : ∀ c ∈ List.replicate k 65, c < 128 := by
  intro c hc; rw [List.eq_of_mem_replicate hc]; norm_num

theorem replicate_no_nl (k : Nat) : ∀ c ∈ List.replicate k 65, c ≠ 10 := by
  intro c hc; rw [List.eq_of_mem_replicate hc]; norm_num

theorem isBlankLine_replicate (k : Nat) (hk : 0 < k) :
    isBlankLine (List.replicate k 65) = false :=
  isBlankLine_false_of_mem _ 65 (List.mem_replicate.mpr ⟨by omega, rfl⟩) rfl

-- the concrete counterexample content: "X\n" ++ "A" * 8193
example : True := trivial

theorem c1content_ascii : ∀ c ∈ c1content, c < 128 := by
  intro c hc
  rcases hc with _ | ⟨_, hc⟩
  · norm_num
  · rcases hc with _ | ⟨_, hc⟩
    · norm_num
    · exact replicate_ascii _ c hc

theorem c1_len : c1content.length = 8195 := by
  show (88 :: 10 :: List.replicate 8193 (65:Nat)).length = 8195
  rw [List.length_cons, List.length_cons, List.length_replicate]

theorem c1_drop3 : c1content.drop 3 = List.replicate 8192 65 := by
  show (List.replicate 8193 (65:Nat)).drop 1 = List.replicate 8192 65
  rw [List.drop_replicate]

theorem c1_take3 : c1content.take 3 = [88, 10, 65] := by
  show 88 :: 10 :: (List.replicate 8193 (65:Nat)).take 1 = [88, 10, 65]
  rw [List.take_replicate]
  norm_num

theorem c1_iter1 : lastLinesLoop c1content 2 8192 8195 8195 [] [] =
    lastLinesLoop c1content 2 8192 8194 3 [] [List.replicate 8192 65] := by
  have e1 := lastLinesLoop.eq_2 c1content 2 8192 8195 [] [] 8194
  rw [e1, if_pos (by norm_num)]
  have hmin : (8192:Nat) ⊓ 8195 = 8192 := by norm_num
  have hsub : (8195:Nat) - 8192 = 3 := by norm_num
  simp only [hmin, hsub, c1_drop3, List.take_replicate, List.append_nil]
  have hmin2 : (8192:Nat) ⊓ 8192 = 8192 := by norm_num
  simp only [hmin2, utf8DecodeIgnore_ascii _ (replicate_ascii 8192),
    splitOnNL_no_nl _ (replicate_no_nl 8192)]
  rw [if_neg (show ¬((0:Nat) < 3 ∧
    1 < ([List.replicate 8192 (65:Nat)]).length) by
      rw [List.length_singleton]; omega)]
  have hpa : (fun l => !isBlankLine l) (List.replicate 8192 (65:Nat)) =
      true := by
    show !isBlankLine (List.replicate 8192 (65:Nat)) = true
    rw [isBlankLine_replicate 8192 (by norm_num)]
    rfl
  have hfil : List.filter (fun l => !isBlankLine l)
      [List.replicate 8192 (65:Nat)] = [List.replicate 8192 65] := by
    rw [List.filter_singleton, isBlankLine_replicate 8192 (by norm_num)]
    rfl
  simp only [List.append_nil, hfil]
  rw [if_neg (show ¬(2 < ([List.replicate 8192 (65:Nat)]).length) by
    rw [List.length_singleton]; omega)]

theorem c1_iter2 :
    lastLinesLoop c1content 2 8192 8194 3 [] [List.replicate 8192 65] =
      [[65], List.replicate 8192 65] := by
  have e2 := lastLinesLoop.eq_2 c1content 2 8192 3 []
    [List.replicate 8192 65] 8193
  rw [e2, if_pos ⟨by norm_num, by rw [List.length_singleton]; omega⟩]
  have hmin : (8192:Nat) ⊓ 3 = 3 := by norm_num
  have hsub : (3:Nat) - 3 = 0 := by norm_num
  simp only [hmin, hsub, List.drop_zero, c1_take3, List.append_nil]
  have hdec : utf8DecodeIgnore [88, 10, 65] = [88, 10, 65] := rfl
  have hsp : splitOnNL [88, 10, 65] = [[88], [65]] := rfl
  rw [hdec, hsp]
  rw [if_neg (show ¬((0:Nat) < 0 ∧
    1 < ([[88], [65]] : List (List Nat)).length) by norm_num)]
  show (if 2 < (List.filter (fun l => !isBlankLine l)
        [[88], [65], List.replicate 8192 (65:Nat)]).length then
      pyLastSlice 2 (List.filter (fun l => !isBlankLine l)
        [[88], [65], List.replicate 8192 65])
    else lastLinesLoop c1content 2 8192 8193 0 []
      (List.filter (fun l => !isBlankLine l)
        [[88], [65], List.replicate 8192 65])) =
    [[65], List.replicate 8192 65]
  have hfil : List.filter (fun l => !isBlankLine l)
      [[88], [65], List.replicate 8192 (65:Nat)] =
      [[88], [65], List.replicate 8192 65] := by
    rw [List.filter_cons, if_pos (by decide), List.filter_cons,
      if_pos (by decide), List.filter_singleton,
      isBlankLine_replicate 8192 (by norm_num)]
    rfl
  rw [hfil]
  have hlen3 : ([[88], [65], List.replicate 8192 (65:Nat)]).length = 3 := by
    rw [List.length_cons, List.length_cons, List.length_singleton]
  rw [if_pos (by rw [hlen3]; omega)]
  simp only [pyLastSlice]
  rw [if_neg (by omega), hlen3]
  rfl

theorem c1_split : splitOnNL c1content = [[88], List.replicate 8193 65] := by
  have h1 : splitOnNL (List.replicate 8193 (65:Nat)) =
      [List.replicate 8193 65] := splitOnNL_no_nl _ (replicate_no_nl 8193)
  have h2 : splitOnNL (10 :: List.replicate 8193 (65:Nat)) =
      [] :: [List.replicate 8193 65] := by
    rw [splitOnNL.eq_2, if_pos rfl, h1]
  show splitOnNL (88 :: 10 :: List.replicate 8193 (65:Nat)) = _
  rw [splitOnNL.eq_2, if_neg (by norm_num), h2]

theorem c1_eval : getLastLines (some c1content) 2 =
    [[65], List.replicate 8192 65] := by
  simp only [getLastLines]
  rw [c1_len]
  rw [if_neg (by norm_num)]
  have hmin : min (8192:Nat) 8195 = 8192 := by norm_num
  rw [hmin, c1_iter1, c1_iter2]

theorem c1_true : specLastLines c1content 2 =
    [[88], List.replicate 8193 65] := by
  have hnb : (splitOnNL (utf8DecodeIgnore c1content)).filter
      (fun l => !isBlankLine l) = [[88], List.replicate 8193 65] := by
    rw [utf8DecodeIgnore_ascii _ c1content_ascii, c1_split,
      List.filter_cons, if_pos (by decide), List.filter_singleton,
      isBlankLine_replicate 8193 (by norm_num)]
    rfl
  simp only [specLastLines]
  rw [hnb]
  have hlen2 : ([[88], List.replicate 8193 (65:Nat)]).length = 2 := by
    rw [List.length_cons, List.length_singleton]
  rw [hlen2]
  rfl

/-- C1 fails on the code at `c1content` (`"X\n"` + one 8193-byte line):
the reverse reader returns `["A", "A"*8192]` — the long line is cut at the
chunk boundary and the fragment is committed as a finished line — instead
of the true final two non-blank lines `["X", "A"*8193]`.  The branch at
log_watcher.py line 67 re-prepends the first split fragment only when the
chunk contained a separator (`len(split_lines) > 1`); a full 8192-byte
chunk with no `'\n'` falls into the `else` at line 70, which wrongly
treats the incomplete fragment as a complete line. -/
theorem getLastLines_chunk_boundary_bug :
    getLastLines (some c1content) 2 = [[65], List.replicate 8192 65] ∧
    specLastLines c1content 2 = [[88], List.replicate 8193 65] ∧
    getLastLines (some c1content) 2 ≠ specLastLines c1content 2 := by
  refine ⟨c1_eval, c1_true, ?_⟩
  rw [c1_eval, c1_true]
  intro heq
  have h2 := congrArg (fun t => (t.headD []).headD 0) heq
  simp only [List.headD_cons] at h2
  exact absurd h2 (by norm_num)
